import Mathlib

/-
Verification of the allocation-and-simulation engine of the restandquest
repository (taxi_macro_sim.py and simulation.py), shallowly embedded in Lean.

Modelling conventions:
* Python floats are modelled as exact numbers: `ℚ` where the code only does
  field arithmetic and comparisons (times, hours, revenue-table values), and
  `ℝ` where the saturation congestion model needs `Real.exp`
  (revenues entering the allocator, macro revenue totals).
* `np.argsort` sorts its input; numpy leaves the relative order of equal keys
  unspecified for the default quicksort.  It is modelled here as a stable
  insertion sort; every theorem below is insensitive to the order chosen
  among equal keys.
* Fallible operations (out-of-range indexing, `raise ValueError`) are
  modelled with `Option`: `none` is the Python exception.
* `np.random.Generator` draws consumed by the random baseline are modelled
  by an explicit stream `σ : ℕ → ℕ` together with a cursor that advances by
  one for every draw the Python code makes.
-/

namespace RestAndQuest

/-- Slot size in hours (`DT = 0.5` in taxi_macro_sim.py). -/
def DT : ℚ := 1/2

/-- One row of the standardized revenue table produced by
`load_revenue_table`: columns day, time, weather, cluster_id,
expected_revenue.  The loader has already normalized: `time` is reduced
mod 24, `weather` is stripped/lowercased, `cluster_id` is a natural number. -/
structure Row where
  day : ℤ
  time : ℚ
  weather : String
  cluster_id : ℕ
  expected_revenue : ℚ
deriving DecidableEq, Repr

/-- Python `t % 24.0` on exact rationals: the representative in `[0, 24)`. -/
def fmod24 (t : ℚ) : ℚ := t - 24 * ((⌊t / 24⌋ : ℤ) : ℚ)

/-- Python `str.lower()` (character-list form of `String.toLower`, which the
kernel cannot reduce on literals). -/
def pyLower (w : String) : String := String.mk (w.data.map Char.toLower)

/-- Python `str.strip()`: whitespace removed from both ends (character-list
form of `String.trim`). -/
def pyStrip (w : String) : String :=
  String.mk (((w.data.dropWhile Char.isWhitespace).reverse.dropWhile
    Char.isWhitespace).reverse)

/-- Circular 24-hour distance used by `_nearest_time_index`:
`min(|a - t|, 24 - |a - t|)`. -/
def circDist (a t : ℚ) : ℚ := min |a - t| (24 - |a - t|)

/-- Stable insertion of an element into a list sorted by a rational key
(ascending); an inserted element goes before strictly greater keys only,
so earlier elements win ties. -/
def insertByKey (key : Row → ℚ) (r : Row) : List Row → List Row
  | [] => [r]
  | s :: l => if key r ≤ key s then r :: s :: l else s :: insertByKey key r l

/-- Stable sort of the row subset by a rational key, modelling
`subset.iloc[np.argsort(distances)]` (see the conventions above on
`np.argsort` and ties). -/
def sortByKey (key : Row → ℚ) : List Row → List Row
  | [] => []
  | r :: l => insertByKey key r (sortByKey key l)

/-- Mean expected revenue of cluster `k` over the whole table:
`df.groupby('cluster_id')['expected_revenue'].mean()` at key `k`.
Lean division by zero yields 0 (the Python series simply has no entry then;
callers guard with membership in `presentClusters`). -/
def clusterMean (df : List Row) (k : ℕ) : ℚ :=
  let rs := (df.filter (fun r => decide (r.cluster_id = k))).map (fun r => r.expected_revenue)
  rs.sum / (rs.length : ℚ)

/-- Distinct cluster ids occurring in the table (the index of the pandas
groupby-mean series). -/
def presentClusters (df : List Row) : List ℕ :=
  (df.map (fun r => r.cluster_id)).dedup

/-- Pandas `global_means.mean()`: the mean of the per-cluster means (not the
global mean over all rows). -/
def meanOfMeans (df : List Row) : ℚ :=
  let ms := (presentClusters df).map (clusterMean df)
  ms.sum / (ms.length : ℚ)

/-- Fallback value the source fills in for a zero resolved revenue:
`global_means.get(k, global_means.mean())`. -/
def zeroFill (df : List Row) (k : ℕ) : ℚ :=
  if k ∈ presentClusters df then clusterMean df k else meanOfMeans df

/-- Resolved pre-fallback revenue vector of `expected_revenue_vector`:
subset selection (exact day+weather, else day, else whole table), stable
nearest-time ordering, `groupby('cluster_id').first()`, entries for clusters
outside the subset left at the `np.zeros` value 0. -/
def baseVector (df : List Row) (day : ℤ) (time_h : ℚ) (weather : String)
    (n_clusters : ℕ) : List ℚ :=
  let d0 : ℤ := day % 7
  let t0 : ℚ := fmod24 time_h
  let w0 : String := pyLower (pyStrip weather)
  let subset1 := df.filter (fun r => decide (r.day = d0 ∧ r.weather = w0))
  let subset2 := if subset1 = [] then df.filter (fun r => decide (r.day = d0)) else subset1
  let subset := if subset2 = [] then df else subset2
  let sorted := sortByKey (fun r => circDist r.time t0) subset
  (List.range n_clusters).map (fun k =>
    match sorted.find? (fun r => decide (r.cluster_id = k)) with
    | some r => r.expected_revenue
    | none => 0)

/-- The revenue oracle `expected_revenue_vector(df, day, time_h, weather,
n_clusters)`: the resolved vector, with the zero-fill loop applied when any
entry equals 0 (`if np.any(rev == 0)`). -/
def expected_revenue_vector (df : List Row) (day : ℤ) (time_h : ℚ)
    (weather : String) (n_clusters : ℕ) : List ℚ :=
  let base := baseVector df day time_h weather n_clusters
  if base.any (fun x => decide (x = 0)) then
    (List.range n_clusters).map (fun k =>
      if base.getD k 0 = 0 then zeroFill df k else base.getD k 0)
  else base

/-- Saturation congestion model `macro_saturation(n, R, alpha)`:
`0` for `n <= 0`, else `R * (1 - exp(-alpha * n))`. -/
noncomputable def macro_saturation (n : ℕ) (R : ℝ) (alpha : ℝ) : ℝ :=
  if n = 0 then 0 else R * (1 - Real.exp (-alpha * (n : ℝ)))

/-- Split (coverage) congestion model `macro_split(n, R)`:
`R` if `n > 0` else `0`. -/
def macro_split (n : ℕ) (R : ℝ) : ℝ :=
  if 0 < n then R else 0

/-- Aggregated macro revenue `compute_macro(assignments, revenues, model,
alpha)`.  `counts[k]` is `np.bincount(assignments, minlength=K)[k]`, i.e. the
multiplicity of `k` among the assignments; an unknown model name raises
`ValueError`, modelled as `none`. -/
noncomputable def compute_macro (assignments : List ℕ) (revenues : List ℝ)
    (model : String) (alpha : ℝ) : Option ℝ :=
  let K := revenues.length
  if model = "saturation" then
    some (((List.range K).map (fun k =>
      macro_saturation (assignments.count k) (revenues.getD k 0) alpha)).sum)
  else if model = "split" then
    some (((List.range K).map (fun k =>
      macro_split (assignments.count k) (revenues.getD k 0))).sum)
  else none

/-- Marginal gain of adding one more driver to a zone holding `n`, the body
of the inner loop of `greedy_macro_allocation` (any model name other than
"saturation" takes the `else`, i.e. split, branch there). -/
noncomputable def marginalGain (model : String) (alpha : ℝ) (n : ℕ) (R : ℝ) : ℝ :=
  if model = "saturation" then
    macro_saturation (n + 1) R alpha - macro_saturation n R alpha
  else
    macro_split (n + 1) R - macro_split n R

/-- Marginal gains of all zones for the current counts (`counts` and
`revenues` always have equal length `K` at every call site). -/
noncomputable def gainsList (model : String) (alpha : ℝ) (revenues : List ℝ)
    (counts : List ℕ) : List ℝ :=
  (counts.zip revenues).map (fun nr => marginalGain model alpha nr.1 nr.2)

/-- Scan `for k in range(K)` of `greedy_macro_allocation` carrying
`(best_k, best_gain)`: a zone replaces the incumbent exactly when its gain is
strictly larger. -/
noncomputable def bestScan : List ℝ → ℕ → ℕ × ℝ → ℕ × ℝ
  | [], _, best => best
  | g :: rest, k, best =>
      bestScan rest (k + 1) (if g > best.2 then (k, g) else best)

/-- Full scan from zone 0 with the source's initial accumulator
`best_k, best_gain = 0, -1e18`. -/
noncomputable def scanBest (gains : List ℝ) : ℕ × ℝ :=
  bestScan gains 0 (0, -(10 : ℝ)^18)

/-- One unit of greedy allocation: find the best zone and increment its
count.  `counts[best_k] += 1` raises `IndexError` when `counts` is empty. -/
noncomputable def greedyStep (model : String) (alpha : ℝ) (revenues : List ℝ)
    (counts : List ℕ) : Option (List ℕ) :=
  let bk := (scanBest (gainsList model alpha revenues counts)).1
  if bk < counts.length then some (counts.set bk (counts.getD bk 0 + 1)) else none

/-- The `for _ in range(num_drivers)` loop of `greedy_macro_allocation`. -/
noncomputable def greedyLoop (model : String) (alpha : ℝ) (revenues : List ℝ) :
    List ℕ → ℕ → Option (List ℕ)
  | counts, 0 => some counts
  | counts, n + 1 =>
      match greedyStep model alpha revenues counts with
      | none => none
      | some c => greedyLoop model alpha revenues c n

/-- Greedy allocator `greedy_macro_allocation(num_drivers, revenues, model,
alpha)`: counts start at `np.zeros(K)` and `num_drivers` units are placed one
at a time. -/
noncomputable def greedy_macro_allocation (num_drivers : ℕ) (revenues : List ℝ)
    (model : String) (alpha : ℝ) : Option (List ℕ) :=
  greedyLoop model alpha revenues (List.replicate revenues.length 0) num_drivers

/-- A driver: mutable record with current zone and remaining active hours
(`@dataclass class Driver`). -/
structure Driver where
  cluster : ℕ
  hours_left : ℚ
deriving DecidableEq, Repr

instance : Inhabited Driver := ⟨⟨0, 0⟩⟩

/-- Active drivers of a population: `[d for d in drivers if d.hours_left > 0]`. -/
def activeOf (drivers : List Driver) : List Driver :=
  drivers.filter (fun d => decide (0 < d.hours_left))

/-- Flat slot list of `assign_recommendation`: zone `k` repeated
`target_counts[k]` times, zones in index order. -/
def slotsOf (target_counts : List ℕ) : List ℕ :=
  (target_counts.enum.map (fun kc => List.replicate kc.2 kc.1)).flatten

/-- Stable insertion of an index into a list of indices sorted by key
ascending (used to model `np.argsort([-d.hours_left for d in active])`;
see the conventions above on ties). -/
def insertIdx (key : ℕ → ℚ) (i : ℕ) : List ℕ → List ℕ
  | [] => [i]
  | j :: l => if key i ≤ key j then i :: j :: l else j :: insertIdx key i l

/-- Stable sort of a list of indices by key ascending. -/
def sortIdx (key : ℕ → ℚ) : List ℕ → List ℕ
  | [] => []
  | i :: l => insertIdx key i (sortIdx key l)

/-- Priority order of `assign_recommendation`: indices into `active` sorted
by negated hours_left ascending, i.e. hours_left descending. -/
def argsortHoursDesc (active : List Driver) : List ℕ :=
  sortIdx (fun i => -(active.getD i default).hours_left) (List.range active.length)

/-- The write loop `for i, didx in enumerate(order): targets[didx] = slots[i]`;
running out of slots while order remains raises `IndexError` (`none`). -/
def writeTargets : List ℕ → List ℕ → List ℤ → Option (List ℤ)
  | [], _, targets => some targets
  | _ :: _, [], _ => none
  | didx :: order, s :: slots, targets =>
      writeTargets order slots (targets.set didx (s : ℤ))

/-- Slot assignment `assign_recommendation(active, target_counts)`: targets
start at `[-1] * len(active)` and the `i`-th ranked driver receives the
`i`-th flat slot. -/
def assign_recommendation (active : List Driver) (target_counts : List ℕ) :
    Option (List ℤ) :=
  writeTargets (argsortHoursDesc active) (slotsOf target_counts)
    (List.replicate active.length (-1))

/-- Clusters of the stayers: the zip loop of `simulate_once` keeps
`d.cluster` for every active driver whose (integer) target equals its current
cluster. -/
def stayingClusters (active : List Driver) (targets : List ℤ) : List ℕ :=
  ((active.zip targets).filter (fun p => decide ((p.1.cluster : ℤ) = p.2))).map
    (fun p => p.1.cluster)

/-- Post-slot state of one active driver: movers change cluster to their
target (`int(tgt)`, nonnegative at every call site), and everyone active has
`hours_left = max(0.0, hours_left - DT)`. -/
def stepDriver (d : Driver) (tgt : ℤ) : Driver :=
  { cluster := if (d.cluster : ℤ) = tgt then d.cluster else tgt.toNat,
    hours_left := max 0 (d.hours_left - DT) }

/-- In-place mutation of the population through the shared references of
`active_rec`: walking the population, each active driver consumes the next
target; inactive drivers are untouched.  If targets run out (unreachable,
since `assign_recommendation` returns one per active driver) remaining active
drivers are only decremented, matching the zip loop stopping early. -/
def applyRec : List Driver → List ℤ → List Driver
  | [], _ => []
  | d :: ds, ts =>
      if 0 < d.hours_left then
        match ts with
        | t :: ts2 => stepDriver d t :: applyRec ds ts2
        | [] => { d with hours_left := max 0 (d.hours_left - DT) } :: applyRec ds []
      else d :: applyRec ds ts

/-- Recommendation-strategy slot transition of `simulate_once`: select the
active drivers, allocate greedily, assign by hours-left priority, pay the
stayers, then move and decrement.  The returned pair is the new population
and the macro revenue added to `total_rec` this slot. -/
noncomputable def recStep (model : String) (alpha : ℝ) (revenues : List ℝ)
    (drivers : List Driver) : Option (List Driver × ℝ) :=
  let active := activeOf drivers
  if active = [] then some (drivers, 0) else
  match greedy_macro_allocation active.length revenues model alpha with
  | none => none
  | some counts =>
    match assign_recommendation active counts with
    | none => none
    | some targets =>
      let staying := stayingClusters active targets
      if staying = [] then some (applyRec drivers targets, 0)
      else
        match compute_macro staying revenues model alpha with
        | none => none
        | some rev => some (applyRec drivers targets, rev)

/-- Targets the random baseline draws for the active drivers, in order:
`int(rng.integers(0, n_clusters))` once per active driver, modelled by the
stream `σ` read from cursor `pos`. -/
def randTargets (σ : ℕ → ℕ) (pos : ℕ) (active : List Driver) : List ℤ :=
  (List.range active.length).map (fun j => ((σ (pos + j) : ℕ) : ℤ))

/-- Population update of the random strategy: each active driver consumes one
draw (stay or move), then is decremented; inactive drivers consume nothing. -/
def applyRand (σ : ℕ → ℕ) : List Driver → ℕ → List Driver
  | [], _ => []
  | d :: ds, p =>
      if 0 < d.hours_left then stepDriver d ((σ p : ℕ) : ℤ) :: applyRand σ ds (p + 1)
      else d :: applyRand σ ds p

/-- Random-strategy slot transition of `simulate_once`.  Returns the new
population, the revenue added to `total_rand`, and the advanced stream
cursor. -/
noncomputable def randStep (model : String) (alpha : ℝ) (revenues : List ℝ)
    (σ : ℕ → ℕ) (pos : ℕ) (drivers : List Driver) :
    Option (List Driver × ℝ × ℕ) :=
  let active := activeOf drivers
  if active = [] then some (drivers, 0, pos) else
  let staying := stayingClusters active (randTargets σ pos active)
  let moved := applyRand σ drivers pos
  let pos2 := pos + active.length
  if staying = [] then some (moved, 0, pos2)
  else
    match compute_macro staying revenues model alpha with
    | none => none
    | some rev => some (moved, rev, pos2)

/-- Mutable state of one `simulate_once` run: clock, the two independently
evolving populations, the two accumulated totals, and the random-stream
cursor. -/
structure SimState where
  day : ℕ
  time : ℚ
  drivers_rec : List Driver
  drivers_rand : List Driver
  total_rec : ℝ
  total_rand : ℝ
  pos : ℕ

/-- One iteration of the slot loop of `simulate_once`: look up the revenue
vector for the current context, run both strategies on it, then advance the
clock (`time = (time + DT) % 24`, and the day steps mod 7 exactly when the
new time is within `1e-9` of 0). -/
noncomputable def slotStep (df : List Row) (n_clusters : ℕ) (weather : String)
    (model : String) (alpha : ℝ) (σ : ℕ → ℕ) (s : SimState) : Option SimState :=
  let revenues : List ℝ :=
    (expected_revenue_vector df (s.day : ℤ) s.time weather n_clusters).map
      (fun q => (q : ℝ))
  match recStep model alpha revenues s.drivers_rec with
  | none => none
  | some dr =>
    match randStep model alpha revenues σ s.pos s.drivers_rand with
    | none => none
    | some dd =>
      let t2 := fmod24 (s.time + DT)
      some { day := if |t2| < 1/1000000000 then (s.day + 1) % 7 else s.day,
             time := t2,
             drivers_rec := dr.1,
             drivers_rand := dd.1,
             total_rec := s.total_rec + dr.2,
             total_rand := s.total_rand + dd.2.1,
             pos := dd.2.2 }

/-- The slot loop of `simulate_once` run for a given number of slots
(`steps = ceil(time_horizon_hours / DT)` at the call site). -/
noncomputable def runSlots (df : List Row) (n_clusters : ℕ) (weather : String)
    (model : String) (alpha : ℝ) (σ : ℕ → ℕ) : ℕ → SimState → Option SimState
  | 0, s => some s
  | T + 1, s =>
      match slotStep df n_clusters weather model alpha σ s with
      | none => none
      | some s2 => runSlots df n_clusters weather model alpha σ T s2

/-! Helper lemmas about the greedy allocator. -/

/-- A scan whose candidates never beat the incumbent returns the incumbent. -/
lemma bestScan_of_le (gains : List ℝ) (k : ℕ) (best : ℕ × ℝ)
    (h : ∀ g ∈ gains, g ≤ best.2) : bestScan gains k best = best := by
  induction gains generalizing k with
  | nil => rfl
  | cons g rest ih =>
      have hg : ¬ g > best.2 := not_lt.mpr (h g (by simp))
      simp only [bestScan, if_neg hg]
      exact ih (k + 1) (fun g2 hg2 => h g2 (by simp [hg2]))

/-- Scanning two gains, the first beating the initial accumulator. -/
lemma scanBest_pair (a b : ℝ) (ha : -(10:ℝ)^18 < a) :
    scanBest [a, b] = if b > a then (1, b) else (0, a) := by
  simp only [scanBest, bestScan]
  rw [if_pos (show a > -(10:ℝ)^18 from ha)]

/-- The scan index stays below any bound covering the incumbent and all
scanned positions. -/
lemma bestScan_fst_lt (gains : List ℝ) (k : ℕ) (best : ℕ × ℝ) (K : ℕ)
    (hb : best.1 < K) (hk : k + gains.length ≤ K) :
    (bestScan gains k best).1 < K := by
  induction gains generalizing k best with
  | nil => exact hb
  | cons g rest ih =>
      simp only [bestScan]
      refine ih (k + 1) _ ?_ ?_
      · by_cases hg : g > best.2
        · simpa [hg] using (by simp at hk; omega : k < K)
        · simpa [hg] using hb
      · simp at hk ⊢; omega

/-- The chosen zone of a full scan is a valid index when there is at least
one zone. -/
lemma scanBest_fst_lt (gains : List ℝ) (h : 1 ≤ gains.length) :
    (scanBest gains).1 < gains.length :=
  bestScan_fst_lt gains 0 (0, -(10:ℝ)^18) gains.length (by omega) (by omega)

/-- Incrementing one entry adds one to the sum of a list of counts. -/
lemma sum_set_succ (l : List ℕ) (i : ℕ) (hi : i < l.length) :
    (l.set i (l.getD i 0 + 1)).sum = l.sum + 1 := by
  induction l generalizing i with
  | nil => simp at hi
  | cons a t ih =>
      cases i with
      | zero => simp [List.getD]; omega
      | succ j =>
          have hj : j < t.length := by simpa using hi
          simp [List.getD] at ih ⊢
          rw [ih j hj]; omega

/-- One greedy unit always succeeds on equal-length nonempty vectors, keeps
the length and adds one to the total. -/
lemma greedyStep_total (model : String) (alpha : ℝ) (revenues : List ℝ)
    (counts : List ℕ) (hlen : counts.length = revenues.length)
    (hK : 1 ≤ revenues.length) :
    ∃ c, greedyStep model alpha revenues counts = some c ∧
      c.length = counts.length ∧ c.sum = counts.sum + 1 := by
  have hg : (gainsList model alpha revenues counts).length = counts.length := by
    simp [gainsList, hlen]
  have hlt : (scanBest (gainsList model alpha revenues counts)).1 < counts.length := by
    have := scanBest_fst_lt (gainsList model alpha revenues counts) (by omega)
    omega
  refine ⟨counts.set (scanBest (gainsList model alpha revenues counts)).1
      (counts.getD (scanBest (gainsList model alpha revenues counts)).1 0 + 1),
    ?_, by simp, sum_set_succ _ _ hlt⟩
  simp only [greedyStep]
  rw [if_pos hlt]

/-- The greedy loop always succeeds on equal-length nonempty vectors, keeps
the length and adds the fuel to the total. -/
lemma greedyLoop_total (model : String) (alpha : ℝ) (revenues : List ℝ)
    (hK : 1 ≤ revenues.length) :
    ∀ (n : ℕ) (counts : List ℕ), counts.length = revenues.length →
    ∃ c, greedyLoop model alpha revenues counts n = some c ∧
      c.length = counts.length ∧ c.sum = counts.sum + n := by
  intro n
  induction n with
  | zero => exact fun counts _ => ⟨counts, rfl, rfl, rfl⟩
  | succ m ih =>
      intro counts hlen
      obtain ⟨c1, hc1, hl1, hs1⟩ := greedyStep_total model alpha revenues counts hlen hK
      obtain ⟨c2, hc2, hl2, hs2⟩ := ih c1 (by omega)
      refine ⟨c2, ?_, by omega, by omega⟩
      simp only [greedyLoop, hc1, hc2]

/-! Claims C1 and C5 about the greedy allocator and the macro aggregator. -/

/-- C1: for every `n ≥ 0`, every revenue vector of length `K ≥ 1`, every
model in the saturation/split pair and every alpha, the greedy allocator
returns `K` (nonnegative, by the `ℕ` coding) counts summing to `n`, and for
`n = 0` it returns the all-zero vector. -/
theorem claim_C1 (n : ℕ) (revenues : List ℝ) (model : String) (alpha : ℝ)
    (hK : 1 ≤ revenues.length)
    (hmodel : model = "saturation" ∨ model = "split") :
    (∃ counts, greedy_macro_allocation n revenues model alpha = some counts ∧
      counts.length = revenues.length ∧ counts.sum = n) ∧
    greedy_macro_allocation 0 revenues model alpha =
      some (List.replicate revenues.length 0) := by
  constructor
  · obtain ⟨c, hc, hl, hs⟩ := greedyLoop_total model alpha revenues hK n
      (List.replicate revenues.length 0) (by simp)
    exact ⟨c, hc, by simpa using hl, by simpa using hs⟩
  · rfl

theorem claim_C1_witness :
    (1 ≤ ([10, 4] : List ℝ).length) ∧
    ((∃ counts, greedy_macro_allocation 5 [10, 4] "split" (1/2) = some counts ∧
        counts.length = ([10, 4] : List ℝ).length ∧ counts.sum = 5) ∧
      greedy_macro_allocation 0 [10, 4] "split" (1/2) =
        some (List.replicate ([10, 4] : List ℝ).length 0)) :=
  ⟨by simp, claim_C1 5 [10, 4] "split" (1/2) (by simp) (Or.inr rfl)⟩

/-- C5 counterexample: on the unknown model name "bogus" the greedy
allocator does not raise at all — it computes the split-model allocation
and returns it, refuting the claim that both functions raise. -/
theorem claim_C5_counterexample :
    greedy_macro_allocation 1 [(5:ℝ)] "bogus" (6/10) = some [1] := by
  have hb : ("bogus" : String) ≠ "saturation" := by decide
  norm_num [greedy_macro_allocation, greedyLoop, greedyStep, scanBest, bestScan,
    gainsList, marginalGain, macro_split, hb]

/-- C5 (amended): an unknown model name is rejected by `compute_macro`
(`ValueError`, here `none`), but `greedy_macro_allocation` silently treats
every name other than "saturation" as the split model. -/
theorem claim_C5 (model : String) (h1 : model ≠ "saturation")
    (h2 : model ≠ "split") :
    (∀ (assignments : List ℕ) (revenues : List ℝ) (alpha : ℝ),
      compute_macro assignments revenues model alpha = none) ∧
    (∀ (n : ℕ) (revenues : List ℝ) (alpha : ℝ),
      greedy_macro_allocation n revenues model alpha =
        greedy_macro_allocation n revenues "split" alpha) := by
  constructor
  · intro a R α
    simp [ compute_macro, h1, h2]
  · intro n R α
    have hgains : ∀ (al : ℝ) (c : List ℕ),
        gainsList model al R c = gainsList "split" al R c := by
      intro al c
      simp only [gainsList]
      congr 1
      funext nr
      simp [marginalGain, h1]
    have hstep : ∀ (al : ℝ) (c : List ℕ),
        greedyStep model al R c = greedyStep "split" al R c := by
      intro al c
      simp only [greedyStep, hgains]
    suffices hloop : ∀ (m : ℕ) (c : List ℕ),
        greedyLoop model α R c m = greedyLoop "split" α R c m by
      exact hloop n _
    intro m
    induction m with
    | zero => intro c; rfl
    | succ k ih =>
        intro c
        simp only [greedyLoop, hstep]
        cases greedyStep "split" α R c with
        | none => rfl
        | some c2 => exact ih c2

theorem claim_C5_witness :
    (("bogus" : String) ≠ "saturation") ∧ (("bogus" : String) ≠ "split") ∧
    ( compute_macro [] [] "bogus" 0 = none ∧
      greedy_macro_allocation 2 [(3:ℝ)] "bogus" 1 =
        greedy_macro_allocation 2 [(3:ℝ)] "split" 1) :=
  ⟨by decide, by decide,
    (claim_C5 "bogus" (by decide) (by decide)).1 [] [] 0,
    (claim_C5 "bogus" (by decide) (by decide)).2 2 [(3:ℝ)] 1⟩

/-! Claim C8: the concrete saturation scenario. -/

/-- Numeric bounds on `exp(-3/5)` used to trace the greedy run of C8. -/
lemma exp_bounds :
    0 < Real.exp (-(3/5) : ℝ) ∧ Real.exp (-(3/5) : ℝ) < 1 ∧
    (2/5 : ℝ) < Real.exp (-(3/5) : ℝ) ∧ Real.exp (-(3/5) : ℝ) < 5/8 := by
  have hx0 : 0 < Real.exp (-(3/5) : ℝ) := Real.exp_pos _
  have hx1 : Real.exp (-(3/5) : ℝ) < 1 := by
    rw [Real.exp_lt_one_iff]; norm_num
  have hx04 : (2/5 : ℝ) < Real.exp (-(3/5) : ℝ) := by
    have := Real.add_one_lt_exp (show (-(3/5) : ℝ) ≠ 0 by norm_num)
    linarith
  have hE : Real.exp (3/5 : ℝ) * Real.exp (-(3/5) : ℝ) = 1 := by
    rw [← Real.exp_add]; norm_num
  have hE8 : (8/5 : ℝ) < Real.exp (3/5) := by
    have := Real.add_one_lt_exp (show ((3:ℝ)/5) ≠ 0 by norm_num)
    linarith
  have hx58 : Real.exp (-(3/5) : ℝ) < 5/8 := by nlinarith
  exact ⟨hx0, hx1, hx04, hx58⟩

/-- C8: on `K = 2`, revenues `[10, 4]`, saturation model with `alpha = 0.6`
and three drivers, the greedy allocator returns counts `[2, 1]`: the first
two units go to zone 0 (their marginal gains still beat zone 1's first-unit
gain) and the third to zone 1. -/
theorem claim_C8 :
    greedy_macro_allocation 3 [10, 4] "saturation" (0.6 : ℝ) = some [2, 1] := by
  rw [show (0.6 : ℝ) = 3/5 by norm_num]
  obtain ⟨hx0, hx1, hx04, hx58⟩ := exp_bounds
  set x := Real.exp (-(3/5) : ℝ) with hx
  have e2 : Real.exp (-(3/5 * (1+1)) : ℝ) = x^2 := by
    rw [show (-(3/5 * (1+1)) : ℝ) = (-(3/5)) + (-(3/5)) by norm_num, Real.exp_add]; ring
  have e2b : Real.exp (-(3/5 * 2) : ℝ) = x^2 := by
    rw [show (-(3/5 * 2) : ℝ) = (-(3/5)) + (-(3/5)) by norm_num, Real.exp_add]; ring
  have e3 : Real.exp (-(3/5 * (2+1)) : ℝ) = x^3 := by
    rw [show (-(3/5 * (2+1)) : ℝ) = (-(3/5)) + (-(3/5)) + (-(3/5)) by norm_num,
      Real.exp_add, Real.exp_add]; ring
  have hg1 : gainsList "saturation" (3/5) [10, 4] [0, 0] =
      [10 * (1 - x), 4 * (1 - x)] := by
    simp [gainsList, marginalGain, macro_saturation]
  have hs1 : greedyStep "saturation" (3/5) [10, 4] [0, 0] = some [1, 0] := by
    unfold greedyStep
    rw [hg1, scanBest_pair _ _ (by nlinarith),
      if_neg (show ¬ (4 * (1 - x) > 10 * (1 - x)) by nlinarith)]
    norm_num
  have hg2 : gainsList "saturation" (3/5) [10, 4] [1, 0] =
      [10 * (1 - x^2) - 10 * (1 - x), 4 * (1 - x)] := by
    simp [gainsList, marginalGain, macro_saturation, e2]
  have hs2 : greedyStep "saturation" (3/5) [10, 4] [1, 0] = some [2, 0] := by
    unfold greedyStep
    rw [hg2, scanBest_pair _ _ (by nlinarith),
      if_neg (show ¬ (4 * (1 - x) > 10 * (1 - x^2) - 10 * (1 - x)) by nlinarith)]
    norm_num
  have hg3 : gainsList "saturation" (3/5) [10, 4] [2, 0] =
      [10 * (1 - x^3) - 10 * (1 - x^2), 4 * (1 - x)] := by
    simp [gainsList, marginalGain, macro_saturation, e2b, e3]
  have hs3 : greedyStep "saturation" (3/5) [10, 4] [2, 0] = some [2, 1] := by
    unfold greedyStep
    rw [hg3, scanBest_pair _ _ (by nlinarith),
      if_pos (show 4 * (1 - x) > 10 * (1 - x^3) - 10 * (1 - x^2) by
        have hq : x^2 < 25/64 := by nlinarith
        nlinarith [mul_lt_mul_of_pos_right hq (show (0:ℝ) < 1 - x by linarith)])]
    norm_num
  show greedyLoop "saturation" (3/5) [10, 4] (List.replicate 2 0) 3 = some [2, 1]
  rw [show List.replicate 2 (0:ℕ) = [0, 0] from rfl]
  simp only [greedyLoop, hs1, hs2, hs3]

/-! Claim C9: tie-breaking in the greedy scan. -/

/-- A list element read through `getD` with an in-range index is a member. -/
lemma getD_mem_of_lt {α : Type} (l : List α) (d : α) (n : ℕ) (h : n < l.length) :
    l.getD n d ∈ l := by
  rw [List.getD_eq_getElem l d h]
  exact List.getElem_mem h

/-- The scan finds the first index attaining the maximum, provided some
candidate beats the incumbent accumulator. -/
lemma bestScan_argmax : ∀ (gains : List ℝ) (k : ℕ) (best : ℕ × ℝ),
    (∃ g ∈ gains, best.2 < g) →
    ∃ j < gains.length,
      bestScan gains k best = (k + j, gains.getD j 0) ∧
      (∀ m < gains.length, gains.getD m 0 ≤ gains.getD j 0) ∧
      (∀ m < j, gains.getD m 0 < gains.getD j 0) ∧
      best.2 < gains.getD j 0 := by
  intro gains
  induction gains with
  | nil => intro k best h; simp at h
  | cons g rest ih =>
      intro k best h
      have hg_le : g ≤ (if g > best.2 then (k, g) else best).2 := by
        by_cases hgb : g > best.2
        · simp [hgb]
        · simp only [if_neg hgb]
          exact not_lt.mp hgb
      have hb_le : best.2 ≤ (if g > best.2 then (k, g) else best).2 := by
        by_cases hgb : g > best.2
        · simp only [if_pos hgb]
          exact le_of_lt hgb
        · simp [hgb]
      by_cases hA : ∃ g2 ∈ rest, (if g > best.2 then (k, g) else best).2 < g2
      · obtain ⟨j, hjlen, heq, hmax, hfirst, hbeat⟩ := ih (k + 1) _ hA
        refine ⟨j + 1, by simpa using Nat.succ_lt_succ hjlen, ?_, ?_, ?_, ?_⟩
        · show bestScan (g :: rest) k best = (k + (j + 1), (g :: rest).getD (j + 1) 0)
          simp only [bestScan, List.getD_cons_succ]
          rw [show k + (j + 1) = k + 1 + j by omega]
          exact heq
        · intro m hm
          cases m with
          | zero =>
              simpa using le_of_lt (lt_of_le_of_lt hg_le hbeat)
          | succ m2 =>
              have hm2 : m2 < rest.length := by simpa using hm
              simpa using hmax m2 hm2
        · intro m hm
          cases m with
          | zero => simpa using lt_of_le_of_lt hg_le hbeat
          | succ m2 =>
              have hm2 : m2 < j := by omega
              simpa using hfirst m2 hm2
        · simpa using lt_of_le_of_lt hb_le hbeat
      · push_neg at hA
        have hgb : g > best.2 := by
          obtain ⟨g2, hg2mem, hg2⟩ := h
          rcases List.mem_cons.mp hg2mem with rfl | hmem
          · exact hg2
          · by_contra hng
            have h2 := hA g2 hmem
            rw [if_neg hng] at h2
            exact absurd hg2 (not_lt.mpr h2)
        rw [if_pos hgb] at hA
        refine ⟨0, by simp, ?_, ?_, by simp, by simpa using hgb⟩
        · show bestScan (g :: rest) k best = (k + 0, (g :: rest).getD 0 0)
          simp only [bestScan, if_pos hgb]
          simpa using bestScan_of_le rest (k + 1) (k, g) (by simpa using hA)
        · intro m hm
          cases m with
          | zero => simp
          | succ m2 =>
              have hm2 : m2 < rest.length := by simpa using hm
              simpa using hA _ (getD_mem_of_lt rest 0 m2 hm2)

/-- Zero base revenue gives zero marginal gain under every model name. -/
lemma marginalGain_zeroR (model : String) (alpha : ℝ) (n : ℕ) :
    marginalGain model alpha n 0 = 0 := by
  unfold marginalGain macro_saturation macro_split
  split_ifs <;> ring

/-- On an all-zero revenue vector all marginal gains are zero. -/
lemma gainsList_zeroR (model : String) (alpha : ℝ) :
    ∀ (counts : List ℕ) (K : ℕ), counts.length = K →
    gainsList model alpha (List.replicate K 0) counts = List.replicate K 0 := by
  intro counts
  induction counts with
  | nil => intro K hK; subst hK; rfl
  | cons c t ih =>
      intro K hK
      subst hK
      simp only [List.length_cons, List.replicate_succ, gainsList, List.zip_cons_cons,
        List.map_cons]
      rw [marginalGain_zeroR]
      have := ih t.length rfl
      simp only [gainsList] at this
      rw [this]

/-- Scanning all-zero gains selects zone 0. -/
lemma scanBest_zeros (k : ℕ) :
    scanBest (List.replicate (k + 1) 0) = ((0 : ℕ), (0 : ℝ)) := by
  rw [List.replicate_succ]
  simp only [scanBest, bestScan]
  rw [if_pos (show (0:ℝ) > -(10:ℝ)^18 by norm_num)]
  exact bestScan_of_le _ 1 (0, 0) (by
    intro g hg
    simp only [List.eq_of_mem_replicate hg]
    norm_num)

/-- The greedy loop on an all-zero revenue vector piles every unit on
zone 0. -/
lemma greedyLoop_zeros (model : String) (alpha : ℝ) (k : ℕ) :
    ∀ (n m : ℕ),
    greedyLoop model alpha (List.replicate (k + 1) 0) (m :: List.replicate k 0) n =
      some ((m + n) :: List.replicate k 0) := by
  intro n
  induction n with
  | zero => intro m; simp [greedyLoop]
  | succ n2 ih =>
      intro m
      have hstep : greedyStep model alpha (List.replicate (k + 1) 0)
          (m :: List.replicate k 0) = some ((m + 1) :: List.replicate k 0) := by
        unfold greedyStep
        rw [gainsList_zeroR model alpha _ (k + 1) (by simp), scanBest_zeros]
        simp [List.getD]
      simp only [greedyLoop, hstep]
      rw [ih (m + 1)]
      congr 2
      omega

/-- C9 (amended): whenever some zone's marginal gain exceeds the scan's
initial sentinel `-1e18`, the greedy step increments exactly the
lowest-indexed zone among those attaining the maximum gain (first maximum
wins); on an all-zero revenue vector every driver lands in zone 0; and the
allocator is deterministic.  (The sentinel hypothesis is necessary: see the
counterexample.) -/
theorem claim_C9 :
    (∀ (model : String) (alpha : ℝ) (revenues : List ℝ) (counts : List ℕ),
      counts.length = revenues.length →
      (∃ g ∈ gainsList model alpha revenues counts, -(10:ℝ)^18 < g) →
      ∃ j < counts.length,
        greedyStep model alpha revenues counts =
          some (counts.set j (counts.getD j 0 + 1)) ∧
        (∀ m < counts.length,
          (gainsList model alpha revenues counts).getD m 0 ≤
            (gainsList model alpha revenues counts).getD j 0) ∧
        (∀ m < j,
          (gainsList model alpha revenues counts).getD m 0 <
            (gainsList model alpha revenues counts).getD j 0)) ∧
    (∀ (model : String) (alpha : ℝ) (n k : ℕ),
      greedy_macro_allocation n (List.replicate (k + 1) 0) model alpha =
        some (n :: List.replicate k 0)) ∧
    (∀ (model : String) (alpha : ℝ) (n : ℕ) (revenues : List ℝ),
      greedy_macro_allocation n revenues model alpha =
        greedy_macro_allocation n revenues model alpha) := by
  refine ⟨?_, ?_, fun _ _ _ _ => rfl⟩
  · intro model alpha revenues counts hlen hex
    have hglen : (gainsList model alpha revenues counts).length = counts.length := by
      simp [gainsList, hlen]
    obtain ⟨j, hjlen, heq, hmax, hfirst, _⟩ :=
      bestScan_argmax (gainsList model alpha revenues counts) 0 (0, -(10:ℝ)^18)
        (by simpa using hex)
    have hj : j < counts.length := by omega
    refine ⟨j, hj, ?_, fun m hm => hmax m (by omega), hfirst⟩
    unfold greedyStep scanBest
    rw [heq]
    simp only [Nat.zero_add]
    rw [if_pos hj]
  · intro model alpha n k
    unfold greedy_macro_allocation
    rw [show (List.replicate (k + 1) (0:ℝ)).length = k + 1 by simp,
      List.replicate_succ]
    simpa using greedyLoop_zeros model alpha k n 0

/-- C9 counterexample: with split-model gains `[-3e18, -2e18, -2e18]` the
maximum marginal gain is attained by zones 1 and 2 (tied), yet because no
gain beats the `-1e18` sentinel the allocator increments zone 0, not the
lowest-indexed tied zone 1. -/
theorem claim_C9_counterexample :
    greedy_macro_allocation 1 [-(3 * 10^18), -(2 * 10^18), -(2 * 10^18)]
      "split" 0 = some [1, 0, 0] ∧
    gainsList "split" 0 [-(3 * 10^18), -(2 * 10^18), -(2 * 10^18)] [0, 0, 0] =
      [-(3 * 10^18), -(2 * 10^18), -(2 * 10^18)] ∧
    (-(3 * 10^18) : ℝ) < -(2 * 10^18) := by
  have hb : ("split" : String) ≠ "saturation" := by decide
  refine ⟨?_, ?_, by norm_num⟩
  · norm_num [greedy_macro_allocation, greedyLoop, greedyStep, scanBest, bestScan,
      gainsList, marginalGain, macro_split, hb, List.replicate]
  · norm_num [gainsList, marginalGain, macro_split, hb]

theorem claim_C9_witness :
    ∃ j < ([0, 0] : List ℕ).length,
      greedyStep "split" 0 [1, 2] [0, 0] =
        some (([0, 0] : List ℕ).set j (([0, 0] : List ℕ).getD j 0 + 1)) ∧
      (∀ m < ([0, 0] : List ℕ).length,
        (gainsList "split" 0 [1, 2] [0, 0]).getD m 0 ≤
          (gainsList "split" 0 [1, 2] [0, 0]).getD j 0) ∧
      (∀ m < j,
        (gainsList "split" 0 [1, 2] [0, 0]).getD m 0 <
          (gainsList "split" 0 [1, 2] [0, 0]).getD j 0) :=
  claim_C9.1 "split" 0 [1, 2] [0, 0] (by simp)
    (by
      have hb : ("split" : String) ≠ "saturation" := by decide
      have hg : gainsList "split" 0 [1, 2] [0, 0] = [1, 2] := by
        norm_num [gainsList, marginalGain, macro_split, hb]
      rw [hg]
      exact ⟨1, by norm_num, by norm_num⟩)

/-! Helper lemmas about the revenue oracle. -/

/-- Membership is preserved by ordered insertion. -/
lemma mem_insertByKey (key : Row → ℚ) (r x : Row) :
    ∀ l : List Row, x ∈ insertByKey key r l → x = r ∨ x ∈ l := by
  intro l
  induction l with
  | nil =>
      intro h
      simp only [insertByKey] at h
      exact Or.inl (by simpa using h)
  | cons s t ih =>
      intro h
      simp only [insertByKey] at h
      split at h
      · rcases List.mem_cons.mp h with h1 | h1
        · exact Or.inl h1
        · exact Or.inr h1
      · rcases List.mem_cons.mp h with h1 | h1
        · exact Or.inr (by simp [h1])
        · rcases ih h1 with h2 | h2
          · exact Or.inl h2
          · exact Or.inr (by simp [h2])

/-- Membership is preserved by the stable sort. -/
lemma mem_sortByKey (key : Row → ℚ) (x : Row) :
    ∀ l : List Row, x ∈ sortByKey key l → x ∈ l := by
  intro l
  induction l with
  | nil =>
      intro h
      simp only [sortByKey] at h
      simpa using h
  | cons r t ih =>
      intro h
      rcases mem_insertByKey key r x _ h with h1 | h1
      · simp [h1]
      · exact List.mem_cons.mpr (Or.inr (ih h1))

/-- Reading a mapped range list at an in-range index. -/
lemma getD_map_range {α : Type} (f : ℕ → α) (K k : ℕ) (d : α) (h : k < K) :
    ((List.range K).map f).getD k d = f k := by
  rw [List.getD_eq_getElem _ d (by simpa using h)]
  simp [h]

/-- The resolved vector has one entry per zone. -/
lemma baseVector_length (df : List Row) (day : ℤ) (t : ℚ) (w : String) (K : ℕ) :
    (baseVector df day t w K).length = K := by
  simp [baseVector]

/-- Every entry of the resolved vector is 0 or the revenue of some table
row. -/
lemma baseVector_cases (df : List Row) (day : ℤ) (t : ℚ) (w : String) (K : ℕ) :
    ∀ x ∈ baseVector df day t w K, x = 0 ∨ ∃ r ∈ df, x = r.expected_revenue := by
  intro x hx
  simp only [baseVector, List.mem_map] at hx
  obtain ⟨k, _, hval⟩ := hx
  set subset := (if (if df.filter
      (fun r => decide (r.day = day % 7 ∧ r.weather = pyLower (pyStrip w))) = []
    then df.filter (fun r => decide (r.day = day % 7))
    else df.filter
      (fun r => decide (r.day = day % 7 ∧ r.weather = pyLower (pyStrip w)))) = []
    then df
    else (if df.filter
      (fun r => decide (r.day = day % 7 ∧ r.weather = pyLower (pyStrip w))) = []
    then df.filter (fun r => decide (r.day = day % 7))
    else df.filter
      (fun r => decide (r.day = day % 7 ∧ r.weather = pyLower (pyStrip w))))) with hsubset
  have hsub : ∀ r ∈ subset, r ∈ df := by
    rw [hsubset]
    intro r hr
    by_cases hmid : (if df.filter
        (fun r => decide (r.day = day % 7 ∧ r.weather = pyLower (pyStrip w))) = []
      then df.filter (fun r => decide (r.day = day % 7))
      else df.filter
        (fun r => decide (r.day = day % 7 ∧ r.weather = pyLower (pyStrip w)))) = []
    · rw [if_pos hmid] at hr
      exact hr
    · rw [if_neg hmid] at hr
      by_cases h1 : df.filter
          (fun r => decide (r.day = day % 7 ∧ r.weather = pyLower (pyStrip w))) = []
      · rw [if_pos h1] at hr
        exact (List.mem_filter.mp hr).1
      · rw [if_neg h1] at hr
        exact (List.mem_filter.mp hr).1
  cases hfind : (sortByKey (fun r => circDist r.time (fmod24 t)) subset).find?
      (fun r => decide (r.cluster_id = k)) with
  | none => rw [hfind] at hval; exact Or.inl hval.symm
  | some r =>
      rw [hfind] at hval
      refine Or.inr ⟨r, ?_, hval.symm⟩
      exact hsub r (mem_sortByKey _ r _ (List.mem_of_find?_eq_some hfind))

/-- Per-cluster means of a nonnegative table are nonnegative. -/
lemma clusterMean_nonneg (df : List Row) (k : ℕ)
    (hnn : ∀ r ∈ df, 0 ≤ r.expected_revenue) : 0 ≤ clusterMean df k := by
  unfold clusterMean
  refine div_nonneg (List.sum_nonneg ?_) (by positivity)
  intro x hx
  simp only [List.mem_map] at hx
  obtain ⟨r, hr, rfl⟩ := hx
  exact hnn r (List.mem_filter.mp hr).1

/-- The mean of the per-cluster means of a nonnegative table is
nonnegative. -/
lemma meanOfMeans_nonneg (df : List Row)
    (hnn : ∀ r ∈ df, 0 ≤ r.expected_revenue) : 0 ≤ meanOfMeans df := by
  unfold meanOfMeans
  refine div_nonneg (List.sum_nonneg ?_) (by positivity)
  intro x hx
  simp only [List.mem_map] at hx
  obtain ⟨c, _, rfl⟩ := hx
  exact clusterMean_nonneg df c hnn

/-- The zero-fill value of a nonnegative table is nonnegative. -/
lemma zeroFill_nonneg (df : List Row) (k : ℕ)
    (hnn : ∀ r ∈ df, 0 ≤ r.expected_revenue) : 0 ≤ zeroFill df k := by
  unfold zeroFill
  split
  · exact clusterMean_nonneg df k hnn
  · exact meanOfMeans_nonneg df hnn

/-! Claim C4 about the revenue oracle. -/

/-- C4 counterexample: a dataset holding a negative expected revenue
propagates it into the returned vector — the code never coerces negative
values to 0. -/
theorem claim_C4_counterexample :
    expected_revenue_vector [⟨0, 0, "clear", 0, -5⟩] 0 0 "clear" 1 = [-5] ∧
    (-5 : ℚ) < 0 := by
  constructor
  · decide
  · decide

/-- C4 (amended): on every context the returned vector has exactly `K`
entries; its entries are all nonnegative provided the (nonempty) dataset's
expected revenues are all nonnegative — with negative dataset values,
negative entries propagate (see the counterexample). -/
theorem claim_C4 (df : List Row) (day : ℤ) (t : ℚ) (w : String) (K : ℕ)
    (hdf : df ≠ []) :
    (expected_revenue_vector df day t w K).length = K ∧
    ((∀ r ∈ df, 0 ≤ r.expected_revenue) →
      ∀ x ∈ expected_revenue_vector df day t w K, 0 ≤ x) := by
  constructor
  · simp only [expected_revenue_vector]
    split
    · simp
    · exact baseVector_length df day t w K
  · intro hnn x hx
    have hbase : ∀ y ∈ baseVector df day t w K, 0 ≤ y := by
      intro y hy
      rcases baseVector_cases df day t w K y hy with rfl | ⟨r, hr, rfl⟩
      · exact le_refl 0
      · exact hnn r hr
    simp only [expected_revenue_vector] at hx
    split at hx
    · simp only [List.mem_map] at hx
      obtain ⟨k, hk, rfl⟩ := hx
      have hkK : k < K := List.mem_range.mp hk
      split
      · exact zeroFill_nonneg df k hnn
      · refine hbase _ (getD_mem_of_lt _ 0 k ?_)
        rw [baseVector_length]
        exact hkK
    · exact hbase x hx

theorem claim_C4_witness :
    (expected_revenue_vector [⟨0, 0, "clear", 0, 5⟩] 0 0 "clear" 1).length = 1 ∧
    ((∀ r ∈ ([⟨0, 0, "clear", 0, 5⟩] : List Row), 0 ≤ r.expected_revenue) →
      ∀ x ∈ expected_revenue_vector [⟨0, 0, "clear", 0, 5⟩] 0 0 "clear" 1, 0 ≤ x) :=
  claim_C4 [⟨0, 0, "clear", 0, 5⟩] 0 0 "clear" 1 (by decide)

/-! Claim C7 about the zero-triggered fallback fill. -/

/-- C7 counterexample: with zones 0 and 1 having 2 and 1 rows and zone 2
absent, the absent zone is filled with the mean of the per-zone means
(`(2 + 6) / 2 = 4`), not the dataset's global mean revenue
(`(1 + 3 + 6) / 3 = 10/3`). -/
theorem claim_C7_counterexample :
    expected_revenue_vector
      [⟨0, 0, "clear", 0, 1⟩, ⟨0, 1, "clear", 0, 3⟩, ⟨0, 0, "clear", 1, 6⟩]
      0 0 "clear" 3 = [1, 6, 4] ∧
    (([⟨0, 0, "clear", 0, 1⟩, ⟨0, 1, "clear", 0, 3⟩,
        ⟨0, 0, "clear", 1, 6⟩] : List Row).map
      (fun r => r.expected_revenue)).sum / 3 = 10/3 ∧
    (4 : ℚ) ≠ 10/3 := by
  refine ⟨?_, by norm_num [List.sum_cons], by norm_num⟩
  have hbase : baseVector
      [⟨0, 0, "clear", 0, 1⟩, ⟨0, 1, "clear", 0, 3⟩, ⟨0, 0, "clear", 1, 6⟩]
      0 0 "clear" 3 = [1, 6, 0] := by
    norm_num [baseVector, fmod24, sortByKey, insertByKey, circDist, min_def,
      (show pyLower (pyStrip "clear") = "clear" by decide), List.filter, List.find?]
    decide
  have hfill : zeroFill
      [⟨0, 0, "clear", 0, 1⟩, ⟨0, 1, "clear", 0, 3⟩, ⟨0, 0, "clear", 1, 6⟩] 2 = 4 := by
    norm_num [zeroFill, presentClusters, meanOfMeans, clusterMean, List.filter,
      List.dedup, List.sum_cons]
  simp only [expected_revenue_vector, hbase]
  norm_num [List.range_succ, hfill]

/-- C7 (amended): a zone whose resolved nearest-time revenue is exactly 0 is
refilled — with the zone's dataset-wide mean when the zone occurs in the
dataset, and otherwise with the mean of the per-zone means (not the global
row mean); a nonzero resolved entry is returned unchanged. -/
theorem claim_C7 (df : List Row) (day : ℤ) (t : ℚ) (w : String) (K k : ℕ)
    (hdf : df ≠ []) (hk : k < K) :
    ((baseVector df day t w K).getD k 0 = 0 →
      (expected_revenue_vector df day t w K).getD k 0 =
        (if ∃ r ∈ df, r.cluster_id = k then clusterMean df k
         else meanOfMeans df)) ∧
    ((baseVector df day t w K).getD k 0 ≠ 0 →
      (expected_revenue_vector df day t w K).getD k 0 =
        (baseVector df day t w K).getD k 0) := by
  have hpresent : (k ∈ presentClusters df) = (∃ r ∈ df, r.cluster_id = k) := by
    simp [presentClusters, List.mem_dedup, List.mem_map, eq_comm]
  constructor
  · intro hzero
    have hany : (baseVector df day t w K).any (fun x => decide (x = 0)) = true := by
      refine List.any_eq_true.mpr ⟨(baseVector df day t w K).getD k 0, ?_, by
        rw [decide_eq_true_eq]; exact hzero⟩
      refine getD_mem_of_lt _ 0 k ?_
      rw [baseVector_length]; exact hk
    simp only [expected_revenue_vector]
    rw [if_pos hany, getD_map_range _ K k 0 hk, if_pos hzero]
    simp only [zeroFill, hpresent]
  · intro hnonzero
    simp only [expected_revenue_vector]
    split
    · rw [getD_map_range _ K k 0 hk, if_neg hnonzero]
    · rfl

theorem claim_C7_witness :
    ((baseVector [⟨0, 0, "clear", 0, 5⟩] 0 0 "clear" 1).getD 0 0 = 0 →
      (expected_revenue_vector [⟨0, 0, "clear", 0, 5⟩] 0 0 "clear" 1).getD 0 0 =
        (if ∃ r ∈ ([⟨0, 0, "clear", 0, 5⟩] : List Row), r.cluster_id = 0 then
          clusterMean [⟨0, 0, "clear", 0, 5⟩] 0
         else meanOfMeans [⟨0, 0, "clear", 0, 5⟩])) ∧
    ((baseVector [⟨0, 0, "clear", 0, 5⟩] 0 0 "clear" 1).getD 0 0 ≠ 0 →
      (expected_revenue_vector [⟨0, 0, "clear", 0, 5⟩] 0 0 "clear" 1).getD 0 0 =
        (baseVector [⟨0, 0, "clear", 0, 5⟩] 0 0 "clear" 1).getD 0 0) :=
  claim_C7 [⟨0, 0, "clear", 0, 5⟩] 0 0 "clear" 1 0 (by decide) (by decide)

/-! Helper lemmas about the slot transition. -/

/-- Inversion of a successful slot step: both strategy transitions succeeded
and the next state is their assembly together with the clock update. -/
lemma slotStep_inv (df : List Row) (K : ℕ) (w model : String) (alpha : ℝ)
    (σ : ℕ → ℕ) (s s2 : SimState)
    (h : slotStep df K w model alpha σ s = some s2) :
    ∃ dr dd,
      recStep model alpha
        ((expected_revenue_vector df (s.day : ℤ) s.time w K).map
          (fun q => (q : ℝ))) s.drivers_rec = some dr ∧
      randStep model alpha
        ((expected_revenue_vector df (s.day : ℤ) s.time w K).map
          (fun q => (q : ℝ))) σ s.pos s.drivers_rand = some dd ∧
      s2 = { day := if |fmod24 (s.time + DT)| < 1/1000000000 then (s.day + 1) % 7
                    else s.day,
             time := fmod24 (s.time + DT),
             drivers_rec := dr.1,
             drivers_rand := dd.1,
             total_rec := s.total_rec + dr.2,
             total_rand := s.total_rand + dd.2.1,
             pos := dd.2.2 } := by
  simp only [slotStep] at h
  cases hr : recStep model alpha
      ((expected_revenue_vector df (s.day : ℤ) s.time w K).map
        (fun q => (q : ℝ))) s.drivers_rec with
  | none => rw [hr] at h; exact absurd h (by simp)
  | some dr =>
      rw [hr] at h
      cases hd : randStep model alpha
          ((expected_revenue_vector df (s.day : ℤ) s.time w K).map
            (fun q => (q : ℝ))) σ s.pos s.drivers_rand with
      | none => rw [hd] at h; exact absurd h (by simp)
      | some dd =>
          rw [hd] at h
          exact ⟨dr, dd, rfl, rfl, (Option.some.inj h).symm⟩

/-! Claim C6 about the clock evolution. -/

/-- C6 counterexample: starting the slot at time 23.7, the clock passes 24
(23.7 + 0.5 = 24.2 ≥ 24), so the claim requires the day to step to
`(day + 1) % 7 = 1`; the code leaves the day at 0 because the wrapped time
0.2 is not within 1e-9 of 0. -/
theorem claim_C6_counterexample :
    (slotStep [] 1 "clear" "saturation" 1 (fun _ => 0)
      ⟨0, 237/10, [], [], 0, 0, 0⟩).map (fun s => (s.day, s.time)) =
      some (0, 1/5) ∧
    (24 : ℚ) ≤ 237/10 + DT ∧ (0 : ℕ) ≠ (0 + 1) % 7 := by
  have hfl : (⌊(237/10 + DT) / 24⌋ : ℤ) = 1 := by
    rw [Int.floor_eq_iff]
    norm_num [DT]
  have hmod : fmod24 (237/10 + DT) = 1/5 := by
    rw [fmod24, hfl]
    norm_num [DT]
  refine ⟨?_, by norm_num [DT], by norm_num⟩
  simp only [slotStep, recStep, randStep, activeOf, List.filter_nil, Option.map]
  rw [hmod]
  norm_num [abs_of_pos]

/-- C6 (amended): after every successful slot, the clock satisfies
`time = (time + DT) mod 24`, and the day advances mod 7 exactly when the
new wrapped time lies within 1e-9 of 0 (which, for times on the half-hour
grid, is exactly the slots that wrap past midnight) — not whenever
`time + DT` reaches 24. -/
theorem claim_C6 (df : List Row) (K : ℕ) (w model : String) (alpha : ℝ)
    (σ : ℕ → ℕ) (s s2 : SimState)
    (h : slotStep df K w model alpha σ s = some s2) :
    s2.time = fmod24 (s.time + DT) ∧
    s2.day = (if |fmod24 (s.time + DT)| < 1/1000000000 then (s.day + 1) % 7
              else s.day) := by
  obtain ⟨dr, dd, _, _, rfl⟩ := slotStep_inv df K w model alpha σ s s2 h
  exact ⟨rfl, rfl⟩

theorem claim_C6_witness :
    (SimState.mk 0 (1/2) [] [] 0 0 0).time = fmod24 ((0 : ℚ) + DT) ∧
    (SimState.mk 0 (1/2) [] [] 0 0 0).day =
      (if |fmod24 ((0 : ℚ) + DT)| < 1/1000000000 then (0 + 1) % 7 else 0) := by
  have hfl : (⌊((0 : ℚ) + DT) / 24⌋ : ℤ) = 0 := by
    rw [Int.floor_eq_iff]
    norm_num [DT]
  have hmod : fmod24 ((0 : ℚ) + DT) = 1/2 := by
    rw [fmod24, hfl]
    norm_num [DT]
  refine claim_C6 [] 1 "clear" "saturation" 1 (fun _ => 0)
    ⟨0, 0, [], [], 0, 0, 0⟩ (SimState.mk 0 (1/2) [] [] 0 0 0) ?_
  simp only [slotStep, recStep, randStep, activeOf, List.filter_nil, Option.map]
  rw [hmod]
  norm_num [abs_of_pos]

/-! Helper lemmas about driver-state evolution (claim C2). -/

/-- Hours facts for the recommendation-population update: hours never grow,
never become negative, and an inactive driver is left untouched. -/
lemma applyRec_getD : ∀ (ds : List Driver) (ts : List ℤ) (i : ℕ),
    ((applyRec ds ts).getD i default).hours_left ≤ (ds.getD i default).hours_left ∧
    (0 ≤ (ds.getD i default).hours_left →
      0 ≤ ((applyRec ds ts).getD i default).hours_left) ∧
    ((ds.getD i default).hours_left = 0 →
      (applyRec ds ts).getD i default = ds.getD i default) := by
  intro ds
  induction ds with
  | nil =>
      intro ts i
      simp [applyRec]
  | cons d rest ih =>
      intro ts i
      by_cases hd : 0 < d.hours_left
      · have hhead : ∀ h2 : ℚ, h2 = max 0 (d.hours_left - DT) →
            h2 ≤ d.hours_left ∧ (0 ≤ d.hours_left → 0 ≤ h2) := by
          intro h2 h2eq
          subst h2eq
          refine ⟨max_le (le_of_lt hd) ?_, fun _ => le_max_left 0 _⟩
          have : (0:ℚ) < DT := by norm_num [DT]
          linarith
        cases ts with
        | nil =>
            simp only [applyRec, if_pos hd]
            cases i with
            | zero =>
                simp only [List.getD_cons_zero]
                obtain ⟨h1, h2⟩ := hhead (max 0 (d.hours_left - DT)) rfl
                exact ⟨h1, h2, fun h0 => absurd (h0 ▸ hd) (by norm_num)⟩
            | succ j =>
                simp only [List.getD_cons_succ]
                exact ih [] j
        | cons t ts2 =>
            simp only [applyRec, if_pos hd]
            cases i with
            | zero =>
                simp only [List.getD_cons_zero, stepDriver]
                obtain ⟨h1, h2⟩ := hhead (max 0 (d.hours_left - DT)) rfl
                exact ⟨h1, h2, fun h0 => absurd (h0 ▸ hd) (by norm_num)⟩
            | succ j =>
                simp only [List.getD_cons_succ]
                exact ih ts2 j
      · simp only [applyRec, if_neg hd]
        cases i with
        | zero => simp
        | succ j =>
            simp only [List.getD_cons_succ]
            exact ih ts j

/-- Hours facts for the random-population update, exactly as for the
recommendation strategy. -/
lemma applyRand_getD (σ : ℕ → ℕ) : ∀ (ds : List Driver) (p i : ℕ),
    ((applyRand σ ds p).getD i default).hours_left ≤ (ds.getD i default).hours_left ∧
    (0 ≤ (ds.getD i default).hours_left →
      0 ≤ ((applyRand σ ds p).getD i default).hours_left) ∧
    ((ds.getD i default).hours_left = 0 →
      (applyRand σ ds p).getD i default = ds.getD i default) := by
  intro ds
  induction ds with
  | nil =>
      intro p i
      simp [applyRand]
  | cons d rest ih =>
      intro p i
      by_cases hd : 0 < d.hours_left
      · simp only [applyRand, if_pos hd]
        cases i with
        | zero =>
            simp only [List.getD_cons_zero, stepDriver]
            refine ⟨max_le (le_of_lt hd) ?_, fun _ => le_max_left 0 _,
              fun h0 => absurd (h0 ▸ hd) (by norm_num)⟩
            have : (0:ℚ) < DT := by norm_num [DT]
            linarith
        | succ j =>
            simp only [List.getD_cons_succ]
            exact ih (p + 1) j
      · simp only [applyRand, if_neg hd]
        cases i with
        | zero => simp
        | succ j =>
            simp only [List.getD_cons_succ]
            exact ih p j

/-- A successful recommendation step leaves the population unchanged or
replaces it by an `applyRec` update. -/
lemma recStep_drivers (model : String) (alpha : ℝ) (R : List ℝ)
    (ds : List Driver) (out : List Driver × ℝ)
    (h : recStep model alpha R ds = some out) :
    out.1 = ds ∨ ∃ ts, out.1 = applyRec ds ts := by
  simp only [recStep] at h
  split at h
  · exact Or.inl (congrArg Prod.fst (Option.some.inj h)).symm
  · split at h
    · exact absurd h (by simp)
    · split at h
      · exact absurd h (by simp)
      · rename_i targets heq
        refine Or.inr ⟨targets, ?_⟩
        split at h
        · exact (congrArg Prod.fst (Option.some.inj h)).symm
        · split at h
          · exact absurd h (by simp)
          · exact (congrArg Prod.fst (Option.some.inj h)).symm

/-- A successful random step leaves the population unchanged or replaces it
by an `applyRand` update. -/
lemma randStep_drivers (model : String) (alpha : ℝ) (R : List ℝ) (σ : ℕ → ℕ)
    (pos : ℕ) (ds : List Driver) (out : List Driver × ℝ × ℕ)
    (h : randStep model alpha R σ pos ds = some out) :
    out.1 = ds ∨ out.1 = applyRand σ ds pos := by
  simp only [randStep] at h
  split at h
  · exact Or.inl (congrArg Prod.fst (Option.some.inj h)).symm
  · split at h
    · exact Or.inr (congrArg Prod.fst (Option.some.inj h)).symm
    · split at h
      · exact absurd h (by simp)
      · exact Or.inr (congrArg Prod.fst (Option.some.inj h)).symm

/-- The hours facts transported to any driver list produced by a successful
step of either strategy. -/
lemma stepList_getD (ds ds2 : List Driver)
    (hcase : ds2 = ds ∨ (∃ ts, ds2 = applyRec ds ts) ∨
      ∃ σ p, ds2 = applyRand σ ds p) (i : ℕ) :
    ((ds2.getD i default).hours_left ≤ (ds.getD i default).hours_left) ∧
    (0 ≤ (ds.getD i default).hours_left →
      0 ≤ (ds2.getD i default).hours_left) ∧
    ((ds.getD i default).hours_left = 0 →
      ds2.getD i default = ds.getD i default) := by
  rcases hcase with rfl | ⟨ts, rfl⟩ | ⟨σ, p, rfl⟩
  · exact ⟨le_refl _, fun h => h, fun _ => rfl⟩
  · exact applyRec_getD ds ts i
  · exact applyRand_getD σ ds p i

/-- Erasing an inactive driver does not change the active sublist. -/
lemma activeOf_eraseIdx : ∀ (ds : List Driver) (i : ℕ), i < ds.length →
    ¬ 0 < (ds.getD i default).hours_left →
    activeOf (ds.eraseIdx i) = activeOf ds := by
  intro ds
  induction ds with
  | nil => intro i hi; simp at hi
  | cons d rest ih =>
      intro i hi h0
      cases i with
      | zero =>
          simp only [List.getD_cons_zero] at h0
          simp only [List.eraseIdx_cons_zero, activeOf, List.filter_cons]
          rw [if_neg (by simpa using h0)]
      | succ j =>
          simp only [List.getD_cons_succ] at h0
          have hj : j < rest.length := by simpa using hi
          simp only [List.eraseIdx_cons_succ, activeOf, List.filter_cons]
          have := ih j hj h0
          simp only [activeOf] at this
          rw [this]

/-- The revenue of a recommendation step depends only on the active
sublist. -/
lemma recStep_rev_eq (model : String) (alpha : ℝ) (R : List ℝ)
    (ds1 ds2 : List Driver) (h : activeOf ds1 = activeOf ds2) :
    (recStep model alpha R ds1).map (fun x => x.2) =
      (recStep model alpha R ds2).map (fun x => x.2) := by
  simp only [recStep, h]
  split
  · rfl
  · cases hgr : greedy_macro_allocation (activeOf ds2).length R model alpha with
    | none => simp [hgr]
    | some counts =>
        simp only [hgr]
        cases har : assign_recommendation (activeOf ds2) counts with
        | none => simp [har]
        | some targets =>
            simp only [har]
            split
            · rfl
            · cases hcm : compute_macro
                  (stayingClusters (activeOf ds2) targets) R model alpha with
              | none => simp [hcm]
              | some rev => simp [hcm]

/-- The revenue and advanced cursor of a random step depend only on the
active sublist. -/
lemma randStep_rev_eq (model : String) (alpha : ℝ) (R : List ℝ) (σ : ℕ → ℕ)
    (pos : ℕ) (ds1 ds2 : List Driver) (h : activeOf ds1 = activeOf ds2) :
    (randStep model alpha R σ pos ds1).map (fun x => x.2) =
      (randStep model alpha R σ pos ds2).map (fun x => x.2) := by
  simp only [randStep, h]
  split
  · rfl
  · split
    · rfl
    · cases hcm : compute_macro
          (stayingClusters (activeOf ds2)
            (randTargets σ pos (activeOf ds2))) R model alpha with
      | none => simp [hcm]
      | some rev => simp [hcm]

/-- One-slot driver facts: hours never grow and never become negative for
either population, and an inactive driver is untouched. -/
lemma slotStep_driver_facts (df : List Row) (K : ℕ) (w model : String)
    (alpha : ℝ) (σ : ℕ → ℕ) (s s2 : SimState)
    (h : slotStep df K w model alpha σ s = some s2) (i : ℕ) :
    ((s2.drivers_rec.getD i default).hours_left ≤
        (s.drivers_rec.getD i default).hours_left ∧
      (s2.drivers_rand.getD i default).hours_left ≤
        (s.drivers_rand.getD i default).hours_left) ∧
    ((0 ≤ (s.drivers_rec.getD i default).hours_left →
        0 ≤ (s2.drivers_rec.getD i default).hours_left) ∧
      (0 ≤ (s.drivers_rand.getD i default).hours_left →
        0 ≤ (s2.drivers_rand.getD i default).hours_left)) ∧
    (((s.drivers_rec.getD i default).hours_left = 0 →
        s2.drivers_rec.getD i default = s.drivers_rec.getD i default) ∧
      ((s.drivers_rand.getD i default).hours_left = 0 →
        s2.drivers_rand.getD i default = s.drivers_rand.getD i default)) := by
  obtain ⟨dr, dd, hrec, hrand, rfl⟩ := slotStep_inv df K w model alpha σ s s2 h
  have hrec2 := stepList_getD s.drivers_rec dr.1
    (by
      rcases recStep_drivers model alpha _ s.drivers_rec dr hrec with h1 | ⟨ts, h1⟩
      · exact Or.inl h1
      · exact Or.inr (Or.inl ⟨ts, h1⟩)) i
  have hrand2 := stepList_getD s.drivers_rand dd.1
    (by
      rcases randStep_drivers model alpha _ σ s.pos s.drivers_rand dd hrand with h1 | h1
      · exact Or.inl h1
      · exact Or.inr (Or.inr ⟨σ, s.pos, h1⟩)) i
  exact ⟨⟨hrec2.1, hrand2.1⟩, ⟨hrec2.2.1, hrand2.2.1⟩, ⟨hrec2.2.2, hrand2.2.2⟩⟩

/-- Frozen drivers stay frozen over any number of slots. -/
lemma runSlots_frozen (df : List Row) (K : ℕ) (w model : String) (alpha : ℝ)
    (σ : ℕ → ℕ) : ∀ (T : ℕ) (s s2 : SimState),
    runSlots df K w model alpha σ T s = some s2 → ∀ i,
    ((s.drivers_rec.getD i default).hours_left = 0 →
      s2.drivers_rec.getD i default = s.drivers_rec.getD i default) ∧
    ((s.drivers_rand.getD i default).hours_left = 0 →
      s2.drivers_rand.getD i default = s.drivers_rand.getD i default) := by
  intro T
  induction T with
  | zero =>
      intro s s2 h i
      simp only [runSlots] at h
      rw [← Option.some.inj h]
      exact ⟨fun _ => rfl, fun _ => rfl⟩
  | succ T2 ih =>
      intro s s2 h i
      simp only [runSlots] at h
      cases hstep : slotStep df K w model alpha σ s with
      | none => rw [hstep] at h; exact absurd h (by simp)
      | some s1 =>
          rw [hstep] at h
          have hone := (slotStep_driver_facts df K w model alpha σ s s1 hstep i).2.2
          have hlater := ih s1 s2 h i
          constructor
          · intro h0
            have he : s1.drivers_rec.getD i default = s.drivers_rec.getD i default :=
              hone.1 h0
            have h1 : (s1.drivers_rec.getD i default).hours_left = 0 := by
              rw [he]; exact h0
            rw [← he]
            exact hlater.1 h1
          · intro h0
            have he : s1.drivers_rand.getD i default = s.drivers_rand.getD i default :=
              hone.2 h0
            have h1 : (s1.drivers_rand.getD i default).hours_left = 0 := by
              rw [he]; exact h0
            rw [← he]
            exact hlater.2 h1

/-! Claim C2: driver-state invariants of a `simulate_once` run. -/

/-- C2: across every slot of a run, each driver's `hours_left` never
increases and never becomes negative (for both strategies); a driver whose
`hours_left` is 0 is never changed again — in one slot and over any number
of later slots — and contributes no revenue: deleting it from either
population changes neither the slot revenue nor (for the random strategy)
the stream cursor. -/
theorem claim_C2 :
    (∀ (df : List Row) (K : ℕ) (w model : String) (alpha : ℝ) (σ : ℕ → ℕ)
      (s s2 : SimState), slotStep df K w model alpha σ s = some s2 → ∀ i,
      ((s2.drivers_rec.getD i default).hours_left ≤
          (s.drivers_rec.getD i default).hours_left ∧
        (s2.drivers_rand.getD i default).hours_left ≤
          (s.drivers_rand.getD i default).hours_left) ∧
      ((0 ≤ (s.drivers_rec.getD i default).hours_left →
          0 ≤ (s2.drivers_rec.getD i default).hours_left) ∧
        (0 ≤ (s.drivers_rand.getD i default).hours_left →
          0 ≤ (s2.drivers_rand.getD i default).hours_left)) ∧
      (((s.drivers_rec.getD i default).hours_left = 0 →
          s2.drivers_rec.getD i default = s.drivers_rec.getD i default) ∧
        ((s.drivers_rand.getD i default).hours_left = 0 →
          s2.drivers_rand.getD i default = s.drivers_rand.getD i default))) ∧
    (∀ (model : String) (alpha : ℝ) (R : List ℝ) (ds : List Driver) (i : ℕ),
      i < ds.length → (ds.getD i default).hours_left = 0 →
      (recStep model alpha R (ds.eraseIdx i)).map (fun x => x.2) =
        (recStep model alpha R ds).map (fun x => x.2)) ∧
    (∀ (model : String) (alpha : ℝ) (R : List ℝ) (σ : ℕ → ℕ) (pos : ℕ)
      (ds : List Driver) (i : ℕ),
      i < ds.length → (ds.getD i default).hours_left = 0 →
      (randStep model alpha R σ pos (ds.eraseIdx i)).map (fun x => x.2) =
        (randStep model alpha R σ pos ds).map (fun x => x.2)) ∧
    (∀ (df : List Row) (K : ℕ) (w model : String) (alpha : ℝ) (σ : ℕ → ℕ)
      (T : ℕ) (s s2 : SimState),
      runSlots df K w model alpha σ T s = some s2 → ∀ i,
      ((s.drivers_rec.getD i default).hours_left = 0 →
        s2.drivers_rec.getD i default = s.drivers_rec.getD i default) ∧
      ((s.drivers_rand.getD i default).hours_left = 0 →
        s2.drivers_rand.getD i default = s.drivers_rand.getD i default)) := by
  refine ⟨slotStep_driver_facts, ?_, ?_, runSlots_frozen⟩
  · intro model alpha R ds i hi h0
    exact recStep_rev_eq model alpha R _ _
      (activeOf_eraseIdx ds i hi (by rw [h0]; norm_num))
  · intro model alpha R σ pos ds i hi h0
    exact randStep_rev_eq model alpha R σ pos _ _
      (activeOf_eraseIdx ds i hi (by rw [h0]; norm_num))

theorem claim_C2_witness :
    ((SimState.mk 0 (1/2) [⟨0, 0⟩] [⟨0, 0⟩] 0 0 0).drivers_rec.getD 0
        default).hours_left ≤
      ((SimState.mk 0 0 [⟨0, 0⟩] [⟨0, 0⟩] 0 0 0).drivers_rec.getD 0
        default).hours_left ∧
    (((SimState.mk 0 0 [⟨0, 0⟩] [⟨0, 0⟩] 0 0 0).drivers_rec.getD 0
        default).hours_left = 0 →
      (SimState.mk 0 (1/2) [⟨0, 0⟩] [⟨0, 0⟩] 0 0 0).drivers_rec.getD 0 default =
        (SimState.mk 0 0 [⟨0, 0⟩] [⟨0, 0⟩] 0 0 0).drivers_rec.getD 0 default) ∧
    (recStep "split" 0 []
        (([⟨3, 0⟩] : List Driver).eraseIdx 0)).map (fun x => x.2) =
      (recStep "split" 0 [] [⟨3, 0⟩]).map (fun x => x.2) := by
  have hfl : (⌊DT / 24⌋ : ℤ) = 0 := by
    rw [Int.floor_eq_iff]
    norm_num [DT]
  have hmod : fmod24 DT = 1/2 := by
    rw [fmod24, hfl]
    norm_num [DT]
  have hstep : slotStep [] 1 "clear" "saturation" 1 (fun _ => 0)
      ⟨0, 0, [⟨0, 0⟩], [⟨0, 0⟩], 0, 0, 0⟩ =
      some (SimState.mk 0 (1/2) [⟨0, 0⟩] [⟨0, 0⟩] 0 0 0) := by
    simp only [slotStep, recStep, randStep, activeOf, List.filter_cons,
      List.filter_nil, Option.map]
    norm_num [hmod, abs_of_pos]
  have hall := claim_C2
  refine ⟨(hall.1 [] 1 "clear" "saturation" 1 (fun _ => 0) _ _ hstep 0).1.1,
    (hall.1 [] 1 "clear" "saturation" 1 (fun _ => 0) _ _ hstep 0).2.2.1, ?_⟩
  exact hall.2.1 "split" 0 [] [⟨3, 0⟩] 0 (by simp) (by simp)

end RestAndQuest
